import Mathlib

/-!
# Verification of the `pyuwb` protocol engine

A shallow embedding of the protocol engine of `pyuwb`
(`src/pyuwb/packing.py` and `src/pyuwb/uwbmodule.py`), together with
theorems settling the specification claims about it.

Modelling conventions:
* Python `bytes` objects are `List Nat`, each element a byte value `< 256`.
* Python exceptions are `Except Err _`; every `raise` site of the source is an
  `Except.error` of the corresponding `Err` constructor.
* A Python `str` value is represented by its UTF-8 encoding (a byte list);
  `utf8Valid` captures decodability of a byte span as text.
* Python floats: `FloatField.pack` emits the 4-byte IEEE-754 image of a float
  (opaque here: the value is carried as its 4 encoded bytes), while
  `FloatField.unpack` parses decimal text (the firmware sends floats as text,
  see `tests/test_packing.py`).  IEEE arithmetic itself is never needed by a
  claim, so a parsed float is carried as its accepted literal text.
-/

namespace Uwb

/-- Decidable equality for `Except`, so concrete runs can be settled by
`decide`. -/
instance {ε α : Type} [DecidableEq ε] [DecidableEq α] : DecidableEq (Except ε α) := fun x y =>
  match x, y with
  | .ok a, .ok b =>
    if h : a = b then .isTrue (by rw [h]) else .isFalse (by simp [h])
  | .error e, .error f =>
    if h : e = f then .isTrue (by rw [h]) else .isFalse (by simp [h])
  | .ok _, .error _ => .isFalse (by simp)
  | .error _, .ok _ => .isFalse (by simp)

/-- Python exception classes raised by the embedded code. -/
inductive Err where
  /-- Source: `RuntimeError(msg)` -/
  | runtime (msg : String)
  /-- Source: `struct.error` (bad buffer length / out-of-range value) -/
  | structErr
  /-- Source: `ValueError` (e.g. `int()` or `float()` on unparsable text) -/
  | valueErr
  /-- Source: `UnicodeDecodeError` (`bytes.decode` on invalid UTF-8) -/
  | unicodeErr
  /-- Source: `IndexError` (sequence index out of range) -/
  | indexErr
  /-- Source: `KeyError` (missing dict key) -/
  | keyErr
  /-- Source: `TypeError`-like mismatch of a duck-typed value with the field codec -/
  | typeErr
  deriving Repr, DecidableEq

/-- A wire field value.  `float` is a value held as its 4-byte IEEE-754
little-endian image (what `struct.pack("<f", v)` produces); `floatParsed` is a
value produced by `float(text)` during unpack, carried as the accepted literal
text (IEEE semantics are not needed by any claim). -/
inductive Value where
  | int (n : Int)
  | bool (b : Bool)
  | str (s : List Nat)
  | float (bits : List Nat)
  | floatParsed (text : List Nat)
  | bytes (bs : List Nat)
  deriving Repr, DecidableEq

/-- The five field-type tags of `packing.py`. -/
inductive FieldT where
  | intF | boolF | strF | floatF | bytesF
  deriving Repr, DecidableEq

/-! ## Nat and text helpers -/

/-- ASCII decimal digit. -/
def isDigit (b : Nat) : Bool := 48 ≤ b && b ≤ 57

/-- Big-endian decimal digit bytes of `n`, fuel-recursive
(`fuel ≥ n` suffices since the argument is divided by 10 each step).
Mirrors the digits of Python `str(n)` for `n > 0`. -/
def natToDigitBytesAux (fuel : Nat) (n : Nat) : List Nat :=
  match fuel with
  | 0 => []
  | f + 1 => if n = 0 then [] else natToDigitBytesAux f (n / 10) ++ [n % 10 + 48]

/-- The bytes of Python `str(n)` for a natural `n`. -/
def natToDigitBytes (n : Nat) : List Nat :=
  if n = 0 then [48] else natToDigitBytesAux n n

/-- The bytes of Python `str(value).encode("utf-8")` for an int `value`. -/
def intToBytes : Int → List Nat
  | .ofNat n => natToDigitBytes n
  | .negSucc m => 45 :: natToDigitBytes (m + 1)

/-- Value of a big-endian string of decimal digit bytes. -/
def digitsToNat (bs : List Nat) : Nat :=
  bs.foldl (fun a b => 10 * a + (b - 48)) 0

/-- Core of Python `int(text)`: optional sign followed by a nonempty run of
ASCII digits.  (Python also strips whitespace and allows underscores and
non-ASCII digits; no such text arises in this protocol and no claim depends
on those forms.) -/
def intParse (bs : List Nat) : Option Int :=
  match bs with
  | [] => none
  | b :: rest =>
    if b = 45 then
      if rest ≠ [] ∧ rest.all isDigit then some (-(digitsToNat rest : Int)) else none
    else if b = 43 then
      if rest ≠ [] ∧ rest.all isDigit then some ((digitsToNat rest : Int)) else none
    else
      if (b :: rest).all isDigit then some ((digitsToNat (b :: rest) : Int)) else none

/-- Strict UTF-8 validity checker, worker.  The second argument is the list of
`(lo, hi)` ranges still expected for the continuation bytes of the current
multi-byte sequence. -/
def utf8ValidAux : List Nat → List (Nat × Nat) → Bool
  | [], [] => true
  | [], _ :: _ => false
  | c :: r, (lo, hi) :: ps => lo ≤ c && c ≤ hi && utf8ValidAux r ps
  | b :: rest, [] =>
    if b < 0x80 then utf8ValidAux rest []
    else if 0xC2 ≤ b && b ≤ 0xDF then utf8ValidAux rest [(0x80, 0xBF)]
    else if b = 0xE0 then utf8ValidAux rest [(0xA0, 0xBF), (0x80, 0xBF)]
    else if (0xE1 ≤ b && b ≤ 0xEC) || (0xEE ≤ b && b ≤ 0xEF) then
      utf8ValidAux rest [(0x80, 0xBF), (0x80, 0xBF)]
    else if b = 0xED then utf8ValidAux rest [(0x80, 0x9F), (0x80, 0xBF)]
    else if b = 0xF0 then utf8ValidAux rest [(0x90, 0xBF), (0x80, 0xBF), (0x80, 0xBF)]
    else if 0xF1 ≤ b && b ≤ 0xF3 then
      utf8ValidAux rest [(0x80, 0xBF), (0x80, 0xBF), (0x80, 0xBF)]
    else if b = 0xF4 then utf8ValidAux rest [(0x80, 0x8F), (0x80, 0xBF), (0x80, 0xBF)]
    else false

/-- Strict UTF-8 validity of a byte string (RFC 3629: lead-byte ranges exclude
surrogates, overlong forms and code points above U+10FFFF), the check done by
Python `bytes.decode("utf-8")`. -/
def utf8Valid (l : List Nat) : Bool := utf8ValidAux l []

/-- Core of Python `float(text)` acceptance: optional sign, a mantissa that is
`digits [. digits*]` or `. digits+`, and an optional exponent part.
(`inf`/`nan`, whitespace and underscores are omitted; no claim depends on
them.) -/
def floatTextValid (s : List Nat) : Bool :=
  let s₁ := match s with
    | 43 :: r => r
    | 45 :: r => r
    | r => r
  let d₁ := s₁.takeWhile isDigit
  let r₁ := s₁.dropWhile isDigit
  let (mantOk, r₂) :=
    match r₁ with
    | 46 :: r => (!d₁.isEmpty || !(r.takeWhile isDigit).isEmpty, r.dropWhile isDigit)
    | r => (!d₁.isEmpty, r)
  match r₂ with
  | [] => mantOk
  | e :: r =>
    if e = 101 ∨ e = 69 then
      let r' := match r with
        | 43 :: t => t
        | 45 :: t => t
        | t => t
      mantOk && !r'.isEmpty && r'.all isDigit
    else false

/-- First index of byte `b` in `msg` (`Python bytes.find`, successful case). -/
def findIdxOpt (b : Nat) : List Nat → Option Nat
  | [] => none
  | c :: r => if c = b then some 0 else (findIdxOpt b r).map (· + 1)

/-- Python `bytes.find`: first index of `b`, or `-1` when absent. -/
def bfind (msg : List Nat) (b : Nat) : Int :=
  match findIdxOpt b msg with
  | none => -1
  | some k => (k : Int)

/-! ## Field codecs (`packing.py` lines 38–91)

Each Python `Field` subclass becomes a namespace with `pack`/`unpack`.
`unpack` receives the remaining message and `next_key_idx`, the index of the
next separator-or-terminator byte, and returns the decoded value together
with the index of the first byte of the following field. -/

namespace IntField

/-- Source: `IntField.pack`: `str(value).encode(encoding)`. -/
def pack (n : Int) : List Nat := intToBytes n

/-- Source: `IntField.unpack`: `int(msg[:next_key_idx].decode(encoding)), next_key_idx`.
The slice is UTF-8-decoded first (`UnicodeDecodeError` on invalid bytes),
then parsed (`ValueError` on non-numeric text). -/
def unpack (msg : List Nat) (nextKeyIdx : Nat) : Except Err (Value × Nat) :=
  let span := msg.take nextKeyIdx
  if utf8Valid span then
    match intParse span with
    | some n => .ok (.int n, nextKeyIdx)
    | none => .error .valueErr
  else .error .unicodeErr

end IntField

namespace BoolField

/-- Source: `BoolField.pack`: `str(int(value)).encode(encoding)` — `"1"` or `"0"`. -/
def pack (b : Bool) : List Nat := [if b then 49 else 48]

/-- Source: `BoolField.unpack`: raises `RuntimeError` unless `next_key_idx == 1`,
then returns `bool(msg[:1].decode(encoding))`.  Note `bool` of a *nonempty*
Python string is `True` whatever its content; it is `False` only for the
empty string (empty `msg`).  A lone byte `≥ 0x80` fails UTF-8 decoding. -/
def unpack (msg : List Nat) (nextKeyIdx : Nat) : Except Err (Value × Nat) :=
  if nextKeyIdx ≠ 1 then .error (.runtime "Bool field is more than 1 byte..")
  else
    match msg with
    | [] => .ok (.bool false, nextKeyIdx)
    | b :: _ => if b < 0x80 then .ok (.bool true, nextKeyIdx) else .error .unicodeErr

end BoolField

namespace StringField

/-- Source: `StringField.pack`: `value.encode(encoding)` — the value is already
modelled by its UTF-8 bytes. -/
def pack (s : List Nat) : List Nat := s

/-- Source: `StringField.unpack`: `msg[:next_key_idx].decode(encoding), next_key_idx`. -/
def unpack (msg : List Nat) (nextKeyIdx : Nat) : Except Err (Value × Nat) :=
  let span := msg.take nextKeyIdx
  if utf8Valid span then .ok (.str span, nextKeyIdx) else .error .unicodeErr

end StringField

namespace FloatField

/-- Source: `FloatField.pack`: `struct.pack("<f", value)` — the 4-byte IEEE-754
little-endian image, carried opaquely by the value itself. -/
def pack (bits : List Nat) : List Nat := bits

/-- Source: `FloatField.unpack`: `float(msg[:next_key_idx].decode(encoding))` — a
*decimal-text* parse of the span (not a 4-byte binary read). -/
def unpack (msg : List Nat) (nextKeyIdx : Nat) : Except Err (Value × Nat) :=
  let span := msg.take nextKeyIdx
  if utf8Valid span then
    if floatTextValid span then .ok (.floatParsed span, nextKeyIdx)
    else .error .valueErr
  else .error .unicodeErr

end FloatField

namespace ByteField

/-- Source: `ByteField.pack`: `struct.pack("<H", len(value)) + value`.
`struct.error` when the length does not fit in two bytes. -/
def pack (bs : List Nat) : Except Err (List Nat) :=
  if bs.length < 65536 then
    .ok ([bs.length % 256, bs.length / 256] ++ bs)
  else .error .structErr

/-- Source: `ByteField.unpack`: `fieldlen = struct.unpack("<H", msg[:2])` (raises
`struct.error` when fewer than 2 bytes remain), then
`msg[2 : 2 + fieldlen], 2 + fieldlen`.  The Python slice silently *clamps*
when fewer than `fieldlen` bytes remain — `List.take` does the same. -/
def unpack (msg : List Nat) (_nextKeyIdx : Nat) : Except Err (Value × Nat) :=
  if h : 2 ≤ msg.length then
    let fieldlen := msg[0] + 256 * msg[1]
    .ok (.bytes ((msg.drop 2).take fieldlen), 2 + fieldlen)
  else .error .structErr

end ByteField

/-- Dispatch of `field_types[i].pack(val)`.  The source is duck-typed; a value
of the wrong shape for the codec is modelled as a `typeErr` (such
combinations arise in no claim). -/
def FieldT.packV : FieldT → Value → Except Err (List Nat)
  | .intF, .int n => .ok (IntField.pack n)
  | .boolF, .bool b => .ok (BoolField.pack b)
  | .strF, .str s => .ok (StringField.pack s)
  | .floatF, .float bits => .ok (FloatField.pack bits)
  | .bytesF, .bytes bs => ByteField.pack bs
  | _, _ => .error .typeErr

/-- Dispatch of `field.unpack(msg, next_key_idx)`. -/
def FieldT.unpackV : FieldT → List Nat → Nat → Except Err (Value × Nat)
  | .intF, msg, k => IntField.unpack msg k
  | .boolF, msg, k => BoolField.unpack msg k
  | .strF, msg, k => StringField.unpack msg k
  | .floatF, msg, k => FloatField.unpack msg k
  | .bytesF, msg, k => ByteField.unpack msg k

/-! ## The Packer (`packing.py` lines 94–157)

`UwbModule` constructs `Packer(separator="|", terminator="\r")`, i.e. bytes
`124` and `13`; the functions below take the two delimiter bytes as explicit
arguments mirroring the `Packer.__init__` fields. -/

namespace Packer

/-- Source: `Packer.get_next_key_char`: index of the soonest separator or terminator,
`RuntimeError` when neither occurs. -/
def getNextKeyChar (sep term : Nat) (msg : List Nat) : Except Err Nat :=
  match findIdxOpt sep msg, findIdxOpt term msg with
  | none, none =>
    .error (.runtime "No seperator or terminator detected in received message.")
  | none, some e => .ok e
  | some s, none => .ok s
  | some s, some e => .ok (min s e)

/-- The loop body of `Packer.pack`: `for i, val in enumerate(field_values):
msg += self._separator + field_types[i].pack(val)`.  Indexing `field_types[i]`
raises `IndexError` when fewer types than values are supplied; surplus types
are ignored, exactly as in the source. -/
def packLoop (sep : Nat) : List Value → List FieldT → Except Err (List Nat)
  | [], _ => .ok []
  | _ :: _, [] => .error .indexErr
  | v :: vs, ft :: fts => do
    let enc ← ft.packV v
    let rest ← packLoop sep vs fts
    .ok (sep :: enc ++ rest)

/-- Source: `Packer.pack`: the joined fields followed by the terminator.  Note the
loop prepends the separator before *every* field, including the first. -/
def pack (sep term : Nat) (fieldValues : List Value) (fieldTypes : List FieldT) :
    Except Err (List Nat) := do
  let body ← packLoop sep fieldValues fieldTypes
  .ok (body ++ [term])

/-- The per-field loop of `Packer.unpack`, carrying `msg_end_idx`.  Each
iteration drops one byte (the separator position the cursor sits on), finds
the next key character, lets the field codec consume the span, and advances
by the codec's reported `next_field_idx`. -/
def unpackLoop (sep term : Nat) :
    List Nat → List FieldT → Nat → Except Err (List Value × Nat)
  | _, [], endIdx => .ok ([], endIdx)
  | msg, ft :: fts, endIdx => do
    let msg₁ := msg.drop 1
    let nki ← getNextKeyChar sep term msg₁
    let (v, k) ← ft.unpackV msg₁ nki
    let (vs, e) ← unpackLoop sep term (msg₁.drop k) fts (endIdx + 1 + k)
    .ok (v :: vs, e)

/-- Source: `Packer.unpack`.  The empty-schema branch returns
`([], msg.find(b"\r"))` (which is `-1` when no terminator occurs).  After the
loop the source evaluates `og_msg[msg_end_idx]` — an `IndexError` when the
offset is out of range — and compares it with the terminator, but only
*constructs* `RuntimeError(...)` without raising it, so a wrong final byte is
never rejected. -/
def unpack (sep term : Nat) (msg : List Nat) (fieldTypes : List FieldT) :
    Except Err (List Value × Int) :=
  if fieldTypes.isEmpty then .ok ([], bfind msg term)
  else do
    let (results, endIdx) ← unpackLoop sep term msg fieldTypes 0
    if endIdx < msg.length then
      .ok (results, (endIdx : Int))
    else .error .indexErr

end Packer

/-! ## The UWB module layer (`uwbmodule.py`)

`UwbModule` constructs `Packer(separator="|", terminator="\r")`; the
delimiters are fixed to bytes `124` and `13` below. -/

/-- The separator byte `"|"` used by `UwbModule`. -/
def sepByte : Nat := 124

/-- The terminator byte `"\r"` used by `UwbModule`. -/
def termByte : Nat := 13

/-- Source: `UwbModule._r_format_dict` (keys UTF-8-encoded in `__init__`):
schemas for response and spontaneous messages. -/
def rFormatDict (key : List Nat) : Option (List FieldT) :=
  if key = [82, 48, 48] then some []                                   -- "R00"
  else if key = [82, 48, 49] then some [.intF]                         -- "R01"
  else if key = [82, 48, 50] then some []                              -- "R02"
  else if key = [82, 48, 51] then                                      -- "R03"
    some [.intF, .intF, .strF, .boolF, .floatF, .bytesF]
  else if key = [82, 48, 52] then some []                              -- "R04"
  else if key = [82, 48, 53] then                                      -- "R05"
    some ([.intF, .floatF] ++ List.replicate 6 .intF ++ List.replicate 2 .floatF)
  else if key = [82, 48, 54] then some []                              -- "R06"
  else if key = [82, 48, 55] then some [.intF]                         -- "R07"
  else if key = [83, 48, 49] then                                      -- "S01"
    some (List.replicate 11 .intF ++ List.replicate 5 .floatF)
  else if key = [83, 48, 53] then                                      -- "S05"
    some ([.intF, .floatF] ++ List.replicate 6 .intF ++ List.replicate 2 .floatF)
  else if key = [83, 48, 54] then some [.bytesF]                       -- "S06"
  else none

/-- Source: `UwbModule._c_format_dict`: schemas for command messages. -/
def cFormatDict (key : List Nat) : Option (List FieldT) :=
  if key = [67, 48, 48] then some []                                   -- "C00"
  else if key = [67, 48, 49] then some []                              -- "C01"
  else if key = [67, 48, 50] then some []                              -- "C02"
  else if key = [67, 48, 51] then                                      -- "C03"
    some [.intF, .strF, .boolF, .floatF, .bytesF]
  else if key = [67, 48, 52] then some [.boolF]                        -- "C04"
  else if key = [67, 48, 53] then some [.intF, .boolF, .boolF]         -- "C05"
  else if key = [67, 48, 54] then some [.bytesF]                       -- "C06"
  else if key = [67, 48, 55] then some []                              -- "C07"
  else none

/-- The mutable messaging state touched by `_read_and_unpack` (cooperative
mode): `_response_container` as an association list (most recent binding
first) and `_msg_queue` as a list appended at the tail. -/
structure ScanState where
  container : List (List Nat × List Value)
  queue : List (List Nat × List Value)
  deriving Repr, DecidableEq

/-- Source: `self._response_container[key] = vals`: replace-or-insert. -/
def setSlot (c : List (List Nat × List Value)) (key : List Nat) (vals : List Value) :
    List (List Nat × List Value) :=
  (key, vals) :: c.filter (fun kv => kv.1 ≠ key)

/-- Source: `_read_and_unpack`'s search for the soonest of `"R"` (82) or `"S"` (83),
`none` when neither occurs. -/
def nextMsgIdx (temp : List Nat) : Option Nat :=
  match findIdxOpt 82 temp, findIdxOpt 83 temp with
  | none, none => none
  | none, some s => some s
  | some r, none => some r
  | some r, some s => some (min r s)

/-- The frame-scanner loop of `_read_and_unpack` (lines 237–291), cooperative
branch.  Fuel-recursive: every iteration drops at least 3 bytes of `temp`, so
`temp.length` fuel always suffices (see `readAndUnpack`).  A parse failure of
one candidate frame is caught (`except Exception`) and scanning continues at
the bytes following the 3-byte key; nothing is raised to the caller. -/
def scanLoop (st : ScanState) (temp : List Nat) (fuel : Nat) : ScanState :=
  match fuel with
  | 0 => st
  | fuel + 1 =>
    if temp.length < 4 then st
    else
      match nextMsgIdx temp with
      | none => st
      | some i =>
        let t₁ := temp.drop i
        let msgKey := t₁.take 3
        let t₂ := t₁.drop 3
        match rFormatDict msgKey with
        | none => scanLoop st t₂ fuel
        | some fts =>
          match Packer.unpack sepByte termByte t₂ fts with
          | .error _ => scanLoop st t₂ fuel
          | .ok (fieldValues, endIdx) =>
            scanLoop
              { container := setSlot st.container msgKey fieldValues,
                queue := st.queue ++ [(msgKey, fieldValues)] }
              (t₂.drop (endIdx + 1).toNat) fuel

/-- Source: `_read_and_unpack` applied to one received chunk `out` (the read itself
is the transport's concern).  `out.length` iterations suffice because each
iteration consumes at least the 3 key bytes. -/
def readAndUnpack (st : ScanState) (out : List Nat) : ScanState :=
  scanLoop st out out.length

/-! ### Command execution (`_execute_command`, lines 405–427)

The observable effect order of `_execute_command` is captured as an event
trace: pack the arguments, prepend the command key, `_send` (a transport
write), then — *after* the write — set the response slot to `None`
("awaiting"), then wait (threaded: condition wait; cooperative: one
read-and-parse cycle), then read the slot. -/

/-- One observable step of `_execute_command`. -/
inductive Event where
  /-- Source: `self._send(msg)` → `self.device.write(msg)` -/
  | write (msg : List Nat)
  /-- Source: `self._response_container[response_key] = None` -/
  | clearSlot (key : List Nat)
  /-- threaded: `self._response_condition.wait(self.timeout)` -/
  | waitCondition
  /-- cooperative: `self._read_and_unpack()` -/
  | readAndUnpack
  /-- Source: `response = self._response_container[response_key]` -/
  | readSlot (key : List Nat)
  deriving Repr, DecidableEq

/-- The event trace of `_execute_command(command_key, response_key, *args)`.
`KeyError` if the command key is unknown; otherwise the `Packer.pack` result
(which may itself raise) prefixed by the key is written first, and the
response slot is cleared only afterwards, in both scheduling modes. -/
def executeCommandEvents (threaded : Bool) (commandKey responseKey : List Nat)
    (args : List Value) : Except Err (List Event) := do
  let fts ← match cFormatDict commandKey with
    | some fts => Except.ok fts
    | none => Except.error .keyErr
  let body ← Packer.pack sepByte termByte args fts
  let msg := commandKey ++ body
  if threaded then
    .ok [.write msg, .clearSlot responseKey, .waitCondition, .readSlot responseKey]
  else
    .ok [.write msg, .clearSlot responseKey, .readAndUnpack, .readSlot responseKey]

/-- The claim's temporal property at a trace: the pending-response slot for
`key` is cleared before any transport write happens (scanning the trace, a
`clearSlot key` is met before the first `write`). -/
def clearedBeforeSend (key : List Nat) : List Event → Bool
  | [] => true
  | .write _ :: _ => false
  | .clearSlot k :: rest => if k = key then true else clearedBeforeSend key rest
  | _ :: rest => clearedBeforeSend key rest

/-! ### Broadcast fragmentation (`broadcast`, lines 722–759) -/

/-- The mutable state of a `LongMessageReceiver`: the accumulated buffer and
the expected-remaining counter (`None` when unseeded).  The counter is kept
as `Int` because the source compares `self._exp_frames_remaining - 1` with
Python integer arithmetic. -/
structure RecvState where
  longMsg : List Nat
  expFramesRemaining : Option Int
  deriving Repr, DecidableEq

/-- The initial (unseeded) receiver state. -/
def RecvState.init : RecvState := ⟨[], none⟩

/-- Source: `LongMessageReceiver.frame_callback(msg)` with `msg = msg[0]` already
extracted (the single Bytes field of an `"S06"` frame).  Returns the new
state and, when the terminal fragment (countdown `0`) arrives, the delivery
`(accumulated buffer, is_valid)` handed to the registered callback.
`struct.unpack("<B", msg[0:1])` raises on an empty buffer.  Note `is_valid`
is a *local* recomputed on every call: a mismatch only leaves
`_exp_frames_remaining` unchanged; it is not latched across calls. -/
def frameCallback (s : RecvState) (msg : List Nat) :
    Except Err (RecvState × Option (List Nat × Bool)) :=
  match msg with
  | [] => .error .structErr
  | framesRemaining :: payload =>
    let longMsg := s.longMsg ++ payload
    let (isValid, exp) :=
      match s.expFramesRemaining with
      | none => (true, some (framesRemaining : Int))
      | some e =>
        if e - 1 ≠ (framesRemaining : Int) then (false, some e)
        else (true, some (framesRemaining : Int))
    if framesRemaining = 0 then
      .ok (RecvState.init, some (longMsg, isValid))
    else
      .ok ({ longMsg := longMsg, expFramesRemaining := exp }, none)

/-- Feed a sequence of fragment payloads to the receiver, collecting every
delivery made to the long-message callback. -/
def runReceiver (s : RecvState) :
    List (List Nat) → Except Err (RecvState × List (List Nat × Bool))
  | [] => .ok (s, [])
  | m :: ms => do
    let (s₁, d) ← frameCallback s m
    let (s₂, ds) ← runReceiver s₁ ms
    .ok (s₂, d.toList ++ ds)

/-- Adjacent countdown values descend by exactly one (the well-formedness the
claim speaks about: each observed countdown is one less than the previously
observed one). -/
def descendsByOne : List Nat → Bool
  | a :: b :: rest => a = b + 1 && descendsByOne (b :: rest)
  | _ => true

/-! ## Round-trip domain

The value/field-type pairs that survive the `pack` → `unpack` cycle with the
default delimiters: Int always; Bool only `True` (Python `bool("0")` is
`True`, so `False` does not survive); String when valid UTF-8 and free of the
separator/terminator bytes (delimiter-scanned); Bytes when its length fits
the 2-byte prefix.  Float never round trips: `pack` emits 4 binary bytes but
`unpack` parses decimal text. -/
def rtSafe : Value → FieldT → Bool
  | .int _, .intF => true
  | .bool b, .boolF => b
  | .str s, .strF => utf8Valid s && s.all (fun c => !(c = sepByte) && !(c = termByte))
  | .bytes bs, .bytesF => bs.length < 65536
  | _, _ => false

/-- Source: `rtSafe` pointwise over a value list and a schema of equal length. -/
def allRtSafe : List Value → List FieldT → Bool
  | [], [] => true
  | v :: vs, t :: ts => rtSafe v t && allRtSafe vs ts
  | _, _ => false

/-- The per-field round-trip domain when the field boundary is supplied at
the end of the encoded bytes (no delimiter scan involved): Int unrestricted;
Bool only `True`; String any valid UTF-8; Bytes shorter than 2^16; Float
never (its decode parses decimal text, which its 4-byte binary encode does
not produce). -/
def rtSafeEnd : Value → FieldT → Bool
  | .int _, .intF => true
  | .bool b, .boolF => b
  | .str s, .strF => utf8Valid s
  | .bytes bs, .bytesF => bs.length < 65536
  | _, _ => false

/-! ## Helper lemmas: `Except` bind reduction -/

theorem except_bind_ok {A B : Type} (a : A) (f : A → Except Err B) :
    (Except.ok a >>= f) = f a := rfl

theorem except_bind_error {A B : Type} (e : Err) (f : A → Except Err B) :
    ((Except.error e : Except Err A) >>= f) = Except.error e := rfl

/-! ## Helper lemmas: decimal text round trip -/

theorem foldl_natToDigitBytesAux (fuel : Nat) :
    ∀ n acc, n ≤ fuel →
      List.foldl (fun a b => 10 * a + (b - 48)) acc (natToDigitBytesAux fuel n)
        = acc * 10 ^ (natToDigitBytesAux fuel n).length + n := by
  induction fuel with
  | zero =>
    intro n acc h
    interval_cases n
    simp [natToDigitBytesAux]
  | succ f ih =>
    intro n acc h
    by_cases hn : n = 0
    · simp [natToDigitBytesAux, hn]
    · have hdiv : n / 10 ≤ f := by
        have := Nat.div_lt_self (Nat.pos_of_ne_zero hn) (by norm_num : 1 < 10)
        omega
      have hmod : n % 10 + 48 - 48 = n % 10 := by omega
      simp only [natToDigitBytesAux, if_neg hn, List.foldl_append, List.length_append,
        List.foldl_cons, List.foldl_nil, List.length_cons, List.length_nil]
      rw [ih (n / 10) acc hdiv, hmod, pow_succ, ← mul_assoc]
      have hd : 10 * (n / 10) + n % 10 = n := Nat.div_add_mod n 10
      generalize acc * 10 ^ (natToDigitBytesAux f (n / 10)).length = A
      omega

theorem digitsToNat_natToDigitBytes (n : Nat) :
    digitsToNat (natToDigitBytes n) = n := by
  by_cases hn : n = 0
  · simp [digitsToNat, natToDigitBytes, hn]
  · unfold digitsToNat natToDigitBytes
    rw [if_neg hn, foldl_natToDigitBytesAux n n 0 (le_refl n)]
    simp

theorem natToDigitBytesAux_mem (fuel : Nat) :
    ∀ n b, b ∈ natToDigitBytesAux fuel n → 48 ≤ b ∧ b ≤ 57 := by
  induction fuel with
  | zero => intro n b hb; simp [natToDigitBytesAux] at hb
  | succ f ih =>
    intro n b hb
    by_cases hn : n = 0
    · simp [natToDigitBytesAux, hn] at hb
    · simp only [natToDigitBytesAux, if_neg hn, List.mem_append, List.mem_singleton] at hb
      rcases hb with hb | hb
      · exact ih _ _ hb
      · have : n % 10 < 10 := Nat.mod_lt _ (by norm_num)
        omega

theorem natToDigitBytes_mem (n : Nat) :
    ∀ b ∈ natToDigitBytes n, 48 ≤ b ∧ b ≤ 57 := by
  intro b hb
  unfold natToDigitBytes at hb
  by_cases hn : n = 0
  · simp [hn] at hb; omega
  · rw [if_neg hn] at hb
    exact natToDigitBytesAux_mem n n b hb

theorem natToDigitBytes_ne_nil (n : Nat) : natToDigitBytes n ≠ [] := by
  unfold natToDigitBytes
  by_cases hn : n = 0
  · simp [hn]
  · rw [if_neg hn]
    intro hcontra
    have hfold := foldl_natToDigitBytesAux n n 0 (le_refl n)
    rw [hcontra] at hfold
    simp at hfold
    exact hn hfold.symm

theorem natToDigitBytes_all_isDigit (n : Nat) :
    (natToDigitBytes n).all isDigit = true := by
  rw [List.all_eq_true]
  intro b hb
  have := natToDigitBytes_mem n b hb
  simp [isDigit]
  omega

theorem intToBytes_mem (n : Int) :
    ∀ b ∈ intToBytes n, 45 ≤ b ∧ b ≤ 57 := by
  intro b hb
  cases n with
  | ofNat m =>
    have := natToDigitBytes_mem m b hb
    omega
  | negSucc m =>
    simp only [intToBytes, List.mem_cons] at hb
    rcases hb with hb | hb
    · omega
    · have := natToDigitBytes_mem (m + 1) b hb
      omega

/-- Round trip of Python `int(str(n))` at the byte level. -/
theorem intParse_intToBytes (n : Int) : intParse (intToBytes n) = some n := by
  cases n with
  | ofNat m =>
    show intParse (natToDigitBytes m) = some (Int.ofNat m)
    obtain ⟨b, rest, hbr⟩ : ∃ b rest, natToDigitBytes m = b :: rest := by
      cases h : natToDigitBytes m with
      | nil => exact absurd h (natToDigitBytes_ne_nil m)
      | cons b rest => exact ⟨b, rest, rfl⟩
    have hmem := natToDigitBytes_mem m
    rw [hbr] at hmem
    have hb48 : 48 ≤ b ∧ b ≤ 57 := hmem b (by simp)
    have hb45 : ¬(b = 45) := by omega
    have hb43 : ¬(b = 43) := by omega
    have hall : (b :: rest).all isDigit = true := by
      rw [← hbr]; exact natToDigitBytes_all_isDigit m
    rw [hbr]
    simp only [intParse]
    rw [if_neg hb45, if_neg hb43, if_pos hall, ← hbr, digitsToNat_natToDigitBytes]
    simp
  | negSucc m =>
    have hall : (natToDigitBytes (m + 1)).all isDigit = true :=
      natToDigitBytes_all_isDigit (m + 1)
    have hne : natToDigitBytes (m + 1) ≠ [] := natToDigitBytes_ne_nil (m + 1)
    show intParse (45 :: natToDigitBytes (m + 1)) = some (Int.negSucc m)
    simp only [intParse, if_true]
    rw [if_pos ⟨hne, hall⟩, digitsToNat_natToDigitBytes]
    simp [Int.negSucc_eq]

/-- All-ASCII byte strings are valid UTF-8. -/
theorem utf8Valid_of_ascii : ∀ l : List Nat, (∀ b ∈ l, b < 128) → utf8Valid l = true := by
  intro l
  induction l with
  | nil => intro; rfl
  | cons b rest ih =>
    intro h
    have hb : b < 0x80 := h b (by simp)
    show utf8ValidAux (b :: rest) [] = true
    rw [utf8ValidAux, if_pos hb]
    exact ih (fun c hc => h c (by simp [hc]))

/-! ## Helper lemmas: delimiter search -/

theorem findIdxOpt_eq_none_iff (b : Nat) :
    ∀ l : List Nat, findIdxOpt b l = none ↔ ∀ c ∈ l, c ≠ b := by
  intro l
  induction l with
  | nil => simp [findIdxOpt]
  | cons c r ih =>
    by_cases hc : c = b
    · simp [findIdxOpt, hc]
    · simp [findIdxOpt, hc, Option.map_eq_none', ih, List.forall_mem_cons]

theorem findIdxOpt_append (b : Nat) :
    ∀ (e tail : List Nat), (∀ c ∈ e, c ≠ b) →
      findIdxOpt b (e ++ tail) = (findIdxOpt b tail).map (· + e.length) := by
  intro e
  induction e with
  | nil =>
    intro tail _
    cases h : findIdxOpt b tail <;> simp [h]
  | cons c e ih =>
    intro tail h
    have hc : ¬(c = b) := h c (by simp)
    have he : ∀ x ∈ e, x ≠ b := fun x hx => h x (by simp [hx])
    have hstep : findIdxOpt b ((c :: e) ++ tail)
        = (findIdxOpt b (e ++ tail)).map (· + 1) := by
      simp [findIdxOpt, hc]
    rw [hstep, ih tail he]
    cases h2 : findIdxOpt b tail
    · simp
    · simp [Nat.add_assoc]

theorem getNextKeyChar_append (sep term : Nat) (e tail : List Nat)
    (he : ∀ c ∈ e, c ≠ sep ∧ c ≠ term)
    (ht : tail.head? = some sep ∨ tail.head? = some term) :
    Packer.getNextKeyChar sep term (e ++ tail) = .ok e.length := by
  have hs := findIdxOpt_append sep e tail (fun c hc => (he c hc).1)
  have hterm := findIdxOpt_append term e tail (fun c hc => (he c hc).2)
  obtain ⟨x, r, hxr⟩ : ∃ x r, tail = x :: r := by
    cases tail with
    | nil => simp at ht
    | cons x r => exact ⟨x, r, rfl⟩
  subst hxr
  simp only [List.head?_cons, Option.some.injEq] at ht
  unfold Packer.getNextKeyChar
  rcases ht with ht | ht
  · subst ht
    rw [findIdxOpt] at hs
    rw [if_pos rfl] at hs
    simp only [Option.map_some', Nat.zero_add] at hs
    rw [hs, hterm]
    cases h2 : findIdxOpt term (x :: r) with
    | none => simp
    | some k =>
      simp only [Option.map_some']
      have : min e.length (k + e.length) = e.length := by omega
      simp [this]
  · subst ht
    rw [findIdxOpt] at hterm
    rw [if_pos rfl] at hterm
    simp only [Option.map_some', Nat.zero_add] at hterm
    rw [hterm, hs]
    cases h2 : findIdxOpt sep (x :: r) with
    | none => simp
    | some k =>
      simp only [Option.map_some']
      have : min (k + e.length) e.length = e.length := by omega
      simp [this]

theorem getNextKeyChar_isOk (sep term : Nat) (msg : List Nat)
    (h : ∃ c ∈ msg, c = sep ∨ c = term) :
    ∃ k, Packer.getNextKeyChar sep term msg = .ok k := by
  unfold Packer.getNextKeyChar
  cases h1 : findIdxOpt sep msg with
  | some s =>
    cases h2 : findIdxOpt term msg <;> exact ⟨_, rfl⟩
  | none =>
    cases h2 : findIdxOpt term msg with
    | some t => exact ⟨t, rfl⟩
    | none =>
      exfalso
      obtain ⟨c, hc, hor⟩ := h
      rcases hor with rfl | rfl
      · exact (findIdxOpt_eq_none_iff c msg).mp h1 c hc rfl
      · exact (findIdxOpt_eq_none_iff c msg).mp h2 c hc rfl

theorem take_append_length (e t : List Nat) : (e ++ t).take e.length = e :=
  List.take_left e t

theorem drop_append_length (e t : List Nat) : (e ++ t).drop e.length = t :=
  List.drop_left e t

/-- One field of the round trip: if `ft.packV v = e` and the bytes after `e`
begin with a separator or terminator, then the delimiter search lands exactly
where the codec consumes, and the codec returns `v` with cursor advance
`e.length`. -/
theorem unpack_field_step (v : Value) (ft : FieldT) (hv : rtSafe v ft = true)
    (e : List Nat) (he : ft.packV v = .ok e) (tail : List Nat)
    (ht : tail.head? = some sepByte ∨ tail.head? = some termByte) :
    ∃ nki, Packer.getNextKeyChar sepByte termByte (e ++ tail) = .ok nki ∧
      ft.unpackV (e ++ tail) nki = .ok (v, e.length) := by
  cases ft with
  | intF =>
    cases v <;> simp [rtSafe] at hv
    rename_i n
    simp only [FieldT.packV, IntField.pack, Except.ok.injEq] at he
    subst he
    have hmem := intToBytes_mem n
    have hkey := getNextKeyChar_append sepByte termByte (intToBytes n) tail
      (fun c hc => by have := hmem c hc; unfold sepByte termByte; omega) ht
    refine ⟨(intToBytes n).length, hkey, ?_⟩
    simp only [FieldT.unpackV, IntField.unpack, take_append_length]
    rw [utf8Valid_of_ascii (intToBytes n) (fun b hb => by have := hmem b hb; omega),
      if_pos rfl]
    rw [intParse_intToBytes]
  | boolF =>
    cases v <;> simp [rtSafe] at hv
    rename_i b
    subst hv
    simp only [FieldT.packV, BoolField.pack, if_true, Except.ok.injEq] at he
    subst he
    have hkey := getNextKeyChar_append sepByte termByte [49] tail
      (fun c hc => by simp at hc; unfold sepByte termByte; omega) ht
    refine ⟨1, hkey, ?_⟩
    simp [FieldT.unpackV, BoolField.unpack]
  | strF =>
    cases v <;> simp [rtSafe] at hv
    rename_i s
    obtain ⟨hutf, hall⟩ := hv
    simp only [FieldT.packV, StringField.pack, Except.ok.injEq] at he
    subst he
    have hkey := getNextKeyChar_append sepByte termByte s tail
      (fun c hc => hall c hc) ht
    refine ⟨s.length, hkey, ?_⟩
    simp only [FieldT.unpackV, StringField.unpack, take_append_length]
    rw [hutf, if_pos rfl]
  | floatF =>
    cases v <;> simp [rtSafe] at hv
  | bytesF =>
    cases v <;> simp [rtSafe] at hv
    rename_i bs
    simp only [FieldT.packV, ByteField.pack, if_pos hv, Except.ok.injEq] at he
    subst he
    obtain ⟨x, r, hxr⟩ : ∃ x r, tail = x :: r := by
      cases tail with
      | nil => simp at ht
      | cons x r => exact ⟨x, r, rfl⟩
    have hx : x = sepByte ∨ x = termByte := by
      rw [hxr] at ht
      simp only [List.head?_cons, Option.some.injEq] at ht
      exact ht
    obtain ⟨nki, hkey⟩ := getNextKeyChar_isOk sepByte termByte
      (([bs.length % 256, bs.length / 256] ++ bs) ++ tail)
      ⟨x, by simp [hxr], hx⟩
    refine ⟨nki, hkey, ?_⟩
    have hshape : (([bs.length % 256, bs.length / 256] ++ bs) ++ tail)
        = bs.length % 256 :: bs.length / 256 :: (bs ++ tail) := by simp
    rw [hshape]
    simp only [FieldT.unpackV, ByteField.unpack]
    have hlen2 : 2 ≤ (bs.length % 256 :: bs.length / 256 :: (bs ++ tail)).length := by
      simp
    rw [dif_pos hlen2]
    have hfl : (bs.length % 256 :: bs.length / 256 :: (bs ++ tail))[0]
        + 256 * (bs.length % 256 :: bs.length / 256 :: (bs ++ tail))[1]
        = bs.length := by
      simp only [List.getElem_cons_zero, List.getElem_cons_succ]
      exact Nat.mod_add_div bs.length 256
    rw [hfl]
    simp only [List.drop_succ_cons, List.drop_zero, take_append_length,
      Except.ok.injEq, Prod.mk.injEq, Value.bytes.injEq]
    refine ⟨trivial, ?_⟩
    simp [List.length_append]
    try omega

/-- A `packLoop` result is empty or begins with the separator byte. -/
theorem packLoop_shape (vs : List Value) (ts : List FieldT) (body : List Nat)
    (h : Packer.packLoop sepByte vs ts = .ok body) :
    body = [] ∨ ∃ b', body = sepByte :: b' := by
  cases vs with
  | nil =>
    simp [Packer.packLoop] at h
    exact Or.inl h
  | cons v vs =>
    cases ts with
    | nil => simp [Packer.packLoop] at h
    | cons t ts =>
      simp only [Packer.packLoop] at h
      cases h1 : t.packV v with
      | error err => rw [h1] at h; simp [except_bind_error] at h
      | ok enc =>
        rw [h1] at h
        cases h2 : Packer.packLoop sepByte vs ts with
        | error err => rw [h2] at h; simp [except_bind_ok, except_bind_error] at h
        | ok b2 =>
          rw [h2] at h
          simp only [except_bind_ok, Except.ok.injEq] at h
          exact Or.inr ⟨enc ++ b2, h.symm⟩

/-- The induction behind the schema round trip: unpacking the packed body of
a round-trip-safe value list, followed by the terminator and anything after
it, recovers the values and consumes exactly the body. -/
theorem unpackLoop_roundtrip :
    ∀ (vs : List Value) (ts : List FieldT), allRtSafe vs ts = true →
      ∀ body rest e0, Packer.packLoop sepByte vs ts = .ok body →
        Packer.unpackLoop sepByte termByte (body ++ termByte :: rest) ts e0
          = .ok (vs, e0 + body.length) := by
  intro vs
  induction vs with
  | nil =>
    intro ts hsafe body rest e0 hpack
    cases ts with
    | cons t ts => simp [allRtSafe] at hsafe
    | nil =>
      simp [Packer.packLoop] at hpack
      subst hpack
      simp [Packer.unpackLoop]
  | cons v vs ih =>
    intro ts hsafe body rest e0 hpack
    cases ts with
    | nil => simp [allRtSafe] at hsafe
    | cons t ts =>
      simp only [allRtSafe, Bool.and_eq_true] at hsafe
      obtain ⟨hv, hrest⟩ := hsafe
      simp only [Packer.packLoop] at hpack
      cases h1 : t.packV v with
      | error err => rw [h1] at hpack; simp [except_bind_error] at hpack
      | ok enc =>
        rw [h1] at hpack
        cases h2 : Packer.packLoop sepByte vs ts with
        | error err => rw [h2] at hpack; simp [except_bind_ok, except_bind_error] at hpack
        | ok b2 =>
          rw [h2] at hpack
          simp only [except_bind_ok, Except.ok.injEq] at hpack
          subst hpack
          have ht : (b2 ++ termByte :: rest).head? = some sepByte
              ∨ (b2 ++ termByte :: rest).head? = some termByte := by
            rcases packLoop_shape vs ts b2 h2 with hb | ⟨b', hb⟩
            · right; rw [hb]; rfl
            · left; rw [hb]; rfl
          obtain ⟨nki, hkey, hunp⟩ :=
            unpack_field_step v t hv enc h1 (b2 ++ termByte :: rest) ht
          have hmsg : (sepByte :: enc ++ b2) ++ termByte :: rest
              = sepByte :: (enc ++ (b2 ++ termByte :: rest)) := by simp
          rw [hmsg]
          simp only [Packer.unpackLoop, List.drop_succ_cons, List.drop_zero]
          rw [hkey, except_bind_ok, hunp, except_bind_ok]
          rw [drop_append_length, ih ts hrest b2 rest (e0 + 1 + enc.length) h2]
          rw [except_bind_ok]
          simp only [Except.ok.injEq, Prod.mk.injEq, true_and]
          simp [List.length_cons, List.length_append]
          omega


/-! ## Helper lemmas: broadcast chunk arithmetic -/

/-- C1 (amended).  The schema round trip `unpack(pack(values, schema),
schema) = values` does not hold for arbitrary matching values (see the
counterexample: Bool `False` comes back as `True`).  It does hold on the
round-trip-safe domain `allRtSafe`: Int unrestricted, Bool restricted to
`True`, String valid UTF-8 without separator/terminator bytes, Bytes
shorter than 2^16, and no Float (whose pack emits 4 binary bytes while its
unpack parses decimal text). -/
theorem c1_schema_roundtrip (vs : List Value) (ts : List FieldT) (m : List Nat)
    (hsafe : allRtSafe vs ts = true)
    (hpack : Packer.pack sepByte termByte vs ts = .ok m) :
    ∃ k, Packer.unpack sepByte termByte m ts = .ok (vs, k) := by
  simp only [Packer.pack] at hpack
  cases hb : Packer.packLoop sepByte vs ts with
  | error err => rw [hb] at hpack; simp [except_bind_error] at hpack
  | ok body =>
    rw [hb] at hpack
    simp only [except_bind_ok, Except.ok.injEq] at hpack
    subst hpack
    cases ts with
    | nil =>
      cases vs with
      | cons v vs2 => simp [allRtSafe] at hsafe
      | nil =>
        refine ⟨bfind (body ++ [termByte]) termByte, ?_⟩
        simp [Packer.unpack]
    | cons t ts2 =>
      have hloop := unpackLoop_roundtrip vs (t :: ts2) hsafe body [] 0 hb
      refine ⟨(body.length : Int), ?_⟩
      simp only [Packer.unpack, List.isEmpty_cons, Bool.false_eq_true, if_false]
      have hsingle : body ++ [termByte] = body ++ termByte :: [] := rfl
      rw [hsingle, hloop, except_bind_ok]
      rw [if_pos (by simp)]
      simp

/-- Witness for `c1_schema_roundtrip`: an Int field and a Bytes field whose
payload contains the separator byte round trip through the packed frame
`|5|␂␀|<CR>`. -/
theorem c1_schema_roundtrip_witness :
    ∃ k, Packer.unpack sepByte termByte [124, 53, 124, 1, 0, 124, 13]
      [.intF, .bytesF] = .ok ([.int 5, .bytes [124]], k) :=
  c1_schema_roundtrip [.int 5, .bytes [124]] [.intF, .bytesF]
    [124, 53, 124, 1, 0, 124, 13] (by decide) (by decide)

/-- Counterexample to C1 as stated: packing value list `[False]` against
schema `[Bool]` and unpacking the resulting frame returns `[True]`, because
`BoolField.unpack` is Python `bool(text)` and `bool("0")` is `True`. -/
theorem c1_schema_roundtrip_counterexample :
    Packer.pack sepByte termByte [.bool false] [.boolF] = .ok [124, 48, 13] ∧
    Packer.unpack sepByte termByte [124, 48, 13] [.boolF] = .ok ([.bool true], 2) ∧
    Value.bool true ≠ Value.bool false := by decide

/-- C2 (amended).  Per-field `decode(encode(v)) = v` with the field boundary
at the end of the encoded bytes fails as stated — Bool `False` decodes to
`True` (see the counterexample) and Float cannot round trip at all (its
encode emits 4 binary IEEE bytes, its decode parses decimal text).  It holds
on the domain `rtSafeEnd`: Int unrestricted, Bool restricted to `True`,
String any valid UTF-8, Bytes shorter than 2^16. -/
theorem c2_field_roundtrip (v : Value) (ft : FieldT) (hv : rtSafeEnd v ft = true) :
    ∃ e, ft.packV v = .ok e ∧ ft.unpackV e e.length = .ok (v, e.length) := by
  cases ft with
  | intF =>
    cases v <;> simp [rtSafeEnd] at hv
    rename_i n
    refine ⟨intToBytes n, by simp [FieldT.packV, IntField.pack], ?_⟩
    simp only [FieldT.unpackV, IntField.unpack, List.take_length]
    rw [utf8Valid_of_ascii _ (fun b hb => by have := intToBytes_mem n b hb; omega),
      if_pos rfl, intParse_intToBytes]
  | boolF =>
    cases v <;> simp [rtSafeEnd] at hv
    rename_i b
    subst hv
    refine ⟨[49], by simp [FieldT.packV, BoolField.pack], ?_⟩
    simp [FieldT.unpackV, BoolField.unpack]
  | strF =>
    cases v <;> simp [rtSafeEnd] at hv
    rename_i str
    refine ⟨str, by simp [FieldT.packV, StringField.pack], ?_⟩
    simp only [FieldT.unpackV, StringField.unpack, List.take_length]
    rw [hv, if_pos rfl]
  | floatF =>
    cases v <;> simp [rtSafeEnd] at hv
  | bytesF =>
    cases v <;> simp [rtSafeEnd] at hv
    rename_i bs
    refine ⟨[bs.length % 256, bs.length / 256] ++ bs,
      by simp [FieldT.packV, ByteField.pack, hv], ?_⟩
    have hshape : [bs.length % 256, bs.length / 256] ++ bs
        = bs.length % 256 :: bs.length / 256 :: bs := rfl
    rw [hshape]
    simp only [FieldT.unpackV, ByteField.unpack]
    rw [dif_pos (by simp)]
    simp only [List.getElem_cons_zero, List.getElem_cons_succ,
      List.drop_succ_cons, List.drop_zero]
    rw [Nat.mod_add_div bs.length 256, List.take_length]
    simp [List.length_cons]
    omega

/-- Witness for `c2_field_roundtrip`: a negative Int round trips through its
decimal text encoding. -/
theorem c2_field_roundtrip_witness :
    ∃ e, FieldT.intF.packV (.int (-42)) = .ok e ∧
      FieldT.intF.unpackV e e.length = .ok (.int (-42), e.length) :=
  c2_field_roundtrip (.int (-42)) .intF (by decide)

/-- Counterexample to C2 as stated: `BoolField` encodes `False` as `"0"`,
but decoding `"0"` (a 1-byte span) yields `True`. -/
theorem c2_field_roundtrip_counterexample :
    FieldT.boolF.packV (.bool false) = .ok [48] ∧
    FieldT.boolF.unpackV [48] 1 = .ok (.bool true, 1) ∧
    Value.bool true ≠ Value.bool false := by decide

/-- C3 (amended).  When the 2-byte little-endian prefix of a Bytes field
declares more payload than remains, `ByteField.unpack` does not fail (the
claimed `TruncatedFrameError` does not exist in the code): the Python slice
`msg[2 : 2 + fieldlen]` clamps, so the decode returns the whole remaining
(shortened) payload together with offset `2 + declared`, which lies beyond
the end of the buffer. -/
theorem c3_bytes_truncation (a b : Nat) (payload : List Nat)
    (hshort : payload.length < a + 256 * b) :
    ByteField.unpack (a :: b :: payload) 0 = .ok (.bytes payload, 2 + (a + 256 * b)) := by
  simp only [ByteField.unpack]
  rw [dif_pos (by simp)]
  simp only [List.getElem_cons_zero, List.getElem_cons_succ,
    List.drop_succ_cons, List.drop_zero]
  rw [List.take_of_length_le (by omega)]

/-- Witness for `c3_bytes_truncation`: prefix declares 5 bytes, only 1 is
available; the decode succeeds with the clamped payload. -/
theorem c3_bytes_truncation_witness :
    ByteField.unpack [5, 0, 65] 0 = .ok (.bytes [65], 7) := by
  have h := c3_bytes_truncation 5 0 [65] (by decide)
  simpa using h

/-- Counterexample to C3 as stated: a buffer declaring 5 payload bytes with
only 1 available decodes successfully (no error of any kind is raised) and
returns the shortened value `[65]`. -/
theorem c3_bytes_truncation_counterexample :
    ByteField.unpack [5, 0, 65] 0 = .ok (.bytes [65], 7) ∧
    (ByteField.unpack [5, 0, 65] 0).isOk = true ∧ (1 : Nat) < 5 := by decide


/-- C4 (amended).  Bool decode does not require the single byte to be ASCII
`'0'` or `'1'` (see the counterexample).  The exact behavior: it succeeds iff
`next_key_idx = 1` and the first byte of the buffer, if any, is below `0x80`
(decodable as one UTF-8 character); on success the value is `bool` of the
decoded 1-character string — always `True` for a nonempty buffer, whatever
the byte, and `False` only when the buffer is empty. -/
theorem c4_bool_decode (msg : List Nat) (nki : Nat) :
    ((BoolField.unpack msg nki).isOk = true ↔ (nki = 1 ∧ msg.head?.getD 0 < 128))
    ∧ ((BoolField.unpack msg nki).isOk = true →
        BoolField.unpack msg nki = .ok (.bool (!msg.isEmpty), nki)) := by
  by_cases h1 : nki = 1
  · subst h1
    cases msg with
    | nil =>
      constructor
      · simp [BoolField.unpack, Except.isOk, Except.toBool]
      · intro
        simp [BoolField.unpack]
    | cons b r =>
      by_cases hb : b < 0x80
      · constructor
        · simp [BoolField.unpack, hb, Except.isOk, Except.toBool]
        · intro
          simp [BoolField.unpack, hb]
      · constructor
        · simp only [BoolField.unpack, if_neg hb]
          simp [Except.isOk, Except.toBool]
          omega
        · intro hcon
          simp only [BoolField.unpack, if_neg hb] at hcon
          simp [Except.isOk, Except.toBool] at hcon
  · constructor
    · simp [BoolField.unpack, h1, Except.isOk, Except.toBool]
    · intro hcon
      simp [BoolField.unpack, h1, Except.isOk, Except.toBool] at hcon

/-- Witness for `c4_bool_decode`: the 1-byte span `"x"` (byte 120) is a
successful Bool decode. -/
theorem c4_bool_decode_witness :
    (BoolField.unpack [120, 13] 1).isOk = true :=
  (c4_bool_decode [120, 13] 1).1.mpr (by decide)

/-- Counterexample to C4 as stated: the 1-byte span holding byte 120
(`'x'`, neither `'0'` nor `'1'`) decodes successfully to `True` instead of
being a decode error. -/
theorem c4_bool_decode_counterexample :
    BoolField.unpack [120, 13] 1 = .ok (.bool true, 1) ∧
    (120 : Nat) ≠ 48 ∧ (120 : Nat) ≠ 49 := by decide

/-- C5 (amended).  `Packer.pack` prepends the separator before every encoded
field including the first one, then appends the terminator: for a nonempty
value list the output begins with the separator byte, not with the first
field's encoded bytes.  (`Packer.unpack` relies on this: it skips one byte
before each field.) -/
theorem c5_pack_layout (v : Value) (vs : List Value) (ft : FieldT)
    (fts : List FieldT) (e rest : List Nat)
    (he : ft.packV v = .ok e)
    (hrest : Packer.packLoop sepByte vs fts = .ok rest) :
    Packer.pack sepByte termByte (v :: vs) (ft :: fts)
      = .ok (sepByte :: (e ++ (rest ++ [termByte]))) := by
  simp only [Packer.pack, Packer.packLoop]
  rw [he, except_bind_ok, hrest, except_bind_ok, except_bind_ok]
  simp

/-- Witness for `c5_pack_layout`: packing `[1]` against `[Int]` yields
`"|1\r"`, whose first byte is the separator. -/
theorem c5_pack_layout_witness :
    Packer.pack sepByte termByte [.int 1] [.intF]
      = .ok (sepByte :: ([49] ++ ([] ++ [termByte]))) :=
  c5_pack_layout (.int 1) [] .intF [] [49] [] (by decide) (by decide)

/-- Counterexample to C5 as stated: `pack([1], [Int])` is `[124, 49, 13]` —
it begins with the separator byte 124, not with the field's encoded first
byte 49. -/
theorem c5_pack_layout_counterexample :
    Packer.pack sepByte termByte [.int 1] [.intF] = .ok [124, 49, 13] ∧
    [124, 49, 13].head? = some sepByte ∧
    IntField.pack 1 = [49] ∧ sepByte ≠ 49 := by decide

/-- C10 (confirmed).  The terminator verification at the end of
`Packer.unpack` has no observable effect when the computed end offset lies
inside the buffer: the source evaluates `og_msg[msg_end_idx] != b'\r'[0]`
but only constructs `RuntimeError(...)` without raising it, so whenever the
per-field loop succeeds with an in-bounds end offset — in particular when
each field found its delimiter — `unpack` returns the decoded values and the
end offset no matter which byte (separator included) sits at that offset. -/
theorem c10_terminator_unchecked (msg : List Nat) (ts : List FieldT)
    (res : List Value) (endIdx : Nat) (hne : ts ≠ [])
    (hloop : Packer.unpackLoop sepByte termByte msg ts 0 = .ok (res, endIdx))
    (hlt : endIdx < msg.length) :
    Packer.unpack sepByte termByte msg ts = .ok (res, (endIdx : Int)) := by
  unfold Packer.unpack
  rw [if_neg (by cases ts with | nil => exact absurd rfl hne | cons t ts2 => simp)]
  rw [hloop, except_bind_ok]
  show (if endIdx < msg.length then Except.ok (res, (endIdx : Int))
      else Except.error Err.indexErr) = Except.ok (res, (endIdx : Int))
  rw [if_pos hlt]

/-- Witness for `c10_terminator_unchecked`: the buffer `"|5|"` ends in the
separator byte instead of the terminator, yet `unpack` succeeds, returning
`[5]` and end offset 2 (where byte 124 sits). -/
theorem c10_terminator_unchecked_witness :
    Packer.unpack sepByte termByte [124, 53, 124] [.intF] = .ok ([.int 5], 2) ∧
    [124, 53, 124].getLast? = some sepByte ∧ sepByte ≠ termByte := by
  refine ⟨?_, by decide, by decide⟩
  exact c10_terminator_unchecked [124, 53, 124] [.intF] [.int 5] 2
    (by decide) (by decide) (by decide)


/-- C6 (confirmed).  Per-frame parse errors are contained inside the frame
scanner: (1) in general, when the candidate frame at the soonest `R`/`S`
position has a known key but `Packer.unpack` fails, one iteration of the
scanner loop leaves the container and queue untouched and continues scanning
right after the 3-byte key — no error escapes (the scanner is a total
function into `ScanState`); and (2) concretely, a chunk holding a malformed
`R01` frame followed by a well-formed one still decodes, stores and enqueues
the later frame. -/
theorem c6_scanner_containment :
    (∀ (st : ScanState) (temp : List Nat) (i : Nat) (fts : List FieldT)
        (err : Err) (fuel : Nat),
        4 ≤ temp.length →
        nextMsgIdx temp = some i →
        rFormatDict ((temp.drop i).take 3) = some fts →
        Packer.unpack sepByte termByte ((temp.drop i).drop 3) fts = .error err →
        scanLoop st temp (fuel + 1) = scanLoop st ((temp.drop i).drop 3) fuel)
    ∧ readAndUnpack ⟨[], []⟩ [82, 48, 49, 124, 13, 82, 48, 49, 124, 52, 50, 13]
        = ⟨[([82, 48, 49], [.int 42])], [([82, 48, 49], [.int 42])]⟩ := by
  constructor
  · intro st temp i fts err fuel h4 hidx hdict hunp
    have hlt : ¬ (temp.length < 4) := by omega
    have hdd : List.drop 3 (List.drop i temp) = List.drop (i + 3) temp := by
      rw [List.drop_drop, Nat.add_comm]
    rw [hdd] at hunp
    simp [scanLoop, hlt, hidx, hdict, hunp, hdd]
  · decide

/-- Witness for `c6_scanner_containment` part (1): the malformed first frame
of the concrete chunk is discarded and scanning resumes after its key. -/
theorem c6_scanner_containment_witness :
    scanLoop ⟨[], []⟩ [82, 48, 49, 124, 13, 82, 48, 49, 124, 52, 50, 13] 12
      = scanLoop ⟨[], []⟩ [124, 13, 82, 48, 49, 124, 52, 50, 13] 11 := by
  exact c6_scanner_containment.1 ⟨[], []⟩
    [82, 48, 49, 124, 13, 82, 48, 49, 124, 52, 50, 13] 0 [.intF] .valueErr 11
    (by decide) (by decide) (by decide) (by decide)

/-- C7 (amended).  `_execute_command` does not clear the pending-response
slot before writing the command frame (see the counterexample): in both
scheduling modes the event order is write first, then clear the slot to the
awaiting state, then wait (threaded) or read-and-parse (cooperative), then
read the slot. -/
theorem c7_clear_after_send (threaded : Bool) (ck rk : List Nat)
    (args : List Value) (fts : List FieldT) (body : List Nat)
    (hdict : cFormatDict ck = some fts)
    (hpack : Packer.pack sepByte termByte args fts = .ok body) :
    executeCommandEvents threaded ck rk args
      = .ok [.write (ck ++ body), .clearSlot rk,
          if threaded then Event.waitCondition else Event.readAndUnpack,
          .readSlot rk] := by
  unfold executeCommandEvents
  simp only [hdict]
  rw [except_bind_ok, hpack, except_bind_ok]
  cases threaded <;> simp

/-- Witness for `c7_clear_after_send`: the no-argument command `C01`
(threaded mode) produces write-then-clear-then-wait-then-read. -/
theorem c7_clear_after_send_witness :
    executeCommandEvents true [67, 48, 49] [82, 48, 49] []
      = .ok [.write ([67, 48, 49] ++ [13]), .clearSlot [82, 48, 49],
          if true then Event.waitCondition else Event.readAndUnpack,
          .readSlot [82, 48, 49]] :=
  c7_clear_after_send true [67, 48, 49] [82, 48, 49] [] [] [13]
    (by decide) (by decide)

/-- Counterexample to C7 as stated: in the cooperative trace of command
`C01` the transport write precedes the slot clear, so the slot is *not*
cleared before the command frame's bytes are written. -/
theorem c7_clear_after_send_counterexample :
    executeCommandEvents false [67, 48, 49] [82, 48, 49] []
      = .ok [.write [67, 48, 49, 13], .clearSlot [82, 48, 49],
          .readAndUnpack, .readSlot [82, 48, 49]] ∧
    clearedBeforeSend [82, 48, 49]
      [.write [67, 48, 49, 13], .clearSlot [82, 48, 49],
       .readAndUnpack, .readSlot [82, 48, 49]] = false := by decide

/-- C9 (amended).  The delivered validity flag is recomputed on the terminal
fragment alone, not latched across the session (see the counterexample):
(1) a fragment with countdown `0` always delivers the full accumulated
buffer plus its own payload, with flag `true` iff the session is unseeded or
its expected counter equals 1 (i.e. `expected - 1 = 0`), and resets the
session; (2) every non-terminal fragment accumulates its payload and
delivers nothing, whatever its countdown. -/
theorem c9_reassembly_validity (s : RecvState) (payload : List Nat) :
    (frameCallback s (0 :: payload)
      = .ok (RecvState.init,
          some (s.longMsg ++ payload,
            match s.expFramesRemaining with
            | none => true
            | some e => decide (e = 1))))
    ∧ (∀ fr, fr ≠ 0 → ∀ st2 d, frameCallback s (fr :: payload) = .ok (st2, d) →
        st2.longMsg = s.longMsg ++ payload ∧ d = none) := by
  constructor
  · simp only [frameCallback]
    cases hexp : s.expFramesRemaining with
    | none => simp
    | some e =>
      by_cases he : e = 1
      · subst he
        simp
      · have hne : e - 1 ≠ ((0 : Nat) : Int) := by omega
        have hne0 : ¬(e - 1 = (0 : Int)) := by omega
        simp [hne, hne0, he]
  · intro fr hfr st2 d hcall
    cases hexp : s.expFramesRemaining with
    | none =>
      simp only [frameCallback, hexp] at hcall
      rw [if_neg hfr] at hcall
      simp only [Except.ok.injEq, Prod.mk.injEq] at hcall
      obtain ⟨h1, h2⟩ := hcall
      constructor
      · rw [← h1]
      · rw [← h2]
    | some e =>
      by_cases he : e - 1 ≠ (fr : Int)
      · simp only [frameCallback, hexp, if_pos he] at hcall
        rw [if_neg hfr] at hcall
        simp only [Except.ok.injEq, Prod.mk.injEq] at hcall
        obtain ⟨h1, h2⟩ := hcall
        constructor
        · rw [← h1]
        · rw [← h2]
      · simp only [frameCallback, hexp, if_neg he] at hcall
        rw [if_neg hfr] at hcall
        simp only [Except.ok.injEq, Prod.mk.injEq] at hcall
        obtain ⟨h1, h2⟩ := hcall
        constructor
        · rw [← h1]
        · rw [← h2]

/-- Witness for `c9_reassembly_validity`: a seeded session with expected
counter 2 receiving the terminal fragment delivers flag `false`; a matching
non-terminal fragment accumulates. -/
theorem c9_reassembly_validity_witness :
    frameCallback ⟨[5], some 2⟩ [0, 7] = .ok (RecvState.init, some ([5, 7], false)) ∧
    ((⟨[5, 7], some 1⟩ : RecvState).longMsg = ([5] : List Nat) ++ [7]) := by
  constructor
  · have h := (c9_reassembly_validity ⟨[5], some 2⟩ [7]).1
    simpa using h
  · exact ((c9_reassembly_validity ⟨[5], some 2⟩ [7]).2 1 (by decide)
      ⟨[5, 7], some 1⟩ none (by decide)).1

/-- Counterexample to C9 as stated: feeding fragments with observed
countdowns `[2, 1, 1, 0]` — the third is *not* one less than the second —
still delivers the accumulated buffer with validity flag `true`, because the
expected counter is only compared against the current fragment and the
mismatch at the duplicate is not latched. -/
theorem c9_reassembly_validity_counterexample :
    runReceiver RecvState.init [[2, 97], [1, 98], [1, 99], [0, 100]]
      = .ok (RecvState.init, [([97, 98, 99, 100], true)]) ∧
    descendsByOne [2, 1, 1, 0] = false := by decide

end Uwb
